import Mathlib

/-!
Shallow embedding of `safe_transaction_service/history/services/index_service.py`:
the reconciliation engine (`block_get_or_create_from_block_hash`,
`tx_create_or_update_from_tx_hash`, `txs_create_or_update_from_tx_hashes`), the
reprocess controller (`_reprocess`, `reprocess_addresses`, `reprocess_all`) and the
reindex loop (`reindex_master_copies`).

Hashes and addresses are modelled as `Nat` (the hex normalisation
`HexBytes(h).hex()` becomes the identity), block numbers as `Int` where the code
subtracts them, the relational store as explicit lists of rows, and the RPC client
as a record of lookup functions.  Raised exceptions become `Except` / `Option`
results.
-/

/-- Raw block data returned by the RPC client (`get_block` / `get_blocks`). -/
structure BlockData where
  hash : Nat
  number : Int
deriving DecidableEq, Repr

/-- Transaction receipt as returned by the RPC client. -/
structure TxReceipt where
  blockNumber : Option Int
  blockHash : Option Nat
deriving DecidableEq, Repr

/-- Raw transaction data returned by the RPC client. -/
structure TxData where
  hash : Nat
  blockHash : Option Nat
deriving DecidableEq, Repr

/-- Stored `EthereumBlock` row. -/
structure EthereumBlock where
  hash : Nat
  number : Int
  confirmed : Bool
deriving DecidableEq, Repr

/-- Stored `EthereumTx` row; `block` is the referenced block hash, null until mined. -/
structure EthereumTx where
  tx_hash : Nat
  block : Option Nat
deriving DecidableEq, Repr

/-- The block/transaction tables of the relational store. -/
structure IndexDb where
  blocks : List EthereumBlock
  txs : List EthereumTx
deriving DecidableEq, Repr

/-- The RPC client (`EthereumClient`): single and batched lookups plus the current
chain height.  Batched endpoints return one optional entry per requested hash. -/
structure EthClient where
  current_block_number : Int
  get_block : Nat → Option BlockData
  get_transaction : Nat → Option TxData
  get_transaction_receipt : Nat → Option TxReceipt
  get_blocks : List Nat → List (Option BlockData)
  get_transactions : List Nat → List (Option TxData)
  get_transaction_receipts : List Nat → List (Option TxReceipt)

/-- The exceptions raised by `txs_create_or_update_from_tx_hashes`.  `assertionFailed`
models the `assert block_hash == block["hash"].hex()` and `keyError` the
`block_dict[...]` lookup of the final loop: neither is part of the documented
`IndexingException` taxonomy but both keep the embedding total. -/
inductive IndexingException where
  | transactionNotFound (txHash : Nat)
  | transactionWithoutBlock (txHash : Nat)
  | blockNotFound (blockHash : Nat)
  | assertionFailed (blockHash : Nat)
  | keyError (k : Nat)
deriving DecidableEq, Repr

/-- `EthereumBlock.objects.get(block_hash=h)`. -/
def findBlock (s : IndexDb) (h : Nat) : Option EthereumBlock :=
  s.blocks.find? (fun b => b.hash == h)

/-- `EthereumTx.objects.get(tx_hash=h)`. -/
def findTx (s : IndexDb) (h : Nat) : Option EthereumTx :=
  s.txs.find? (fun t => t.tx_hash == h)

/-- `EthereumBlock.objects.get_or_create_from_block(block, confirmed=confirmed)`:
idempotent by block hash, a concurrent creator wins. -/
def get_or_create_from_block (s : IndexDb) (b : BlockData) (confirmed : Bool) :
    IndexDb × EthereumBlock :=
  match findBlock s b.hash with
  | some blk => (s, blk)
  | none =>
    let blk : EthereumBlock := ⟨b.hash, b.number, confirmed⟩
    ({ s with blocks := s.blocks ++ [blk] }, blk)

/-- The reorg-depth confirmation rule
`(current_block_number - block["number"]) >= self.eth_reorg_blocks`, computed
identically at both call sites of the source (lines 78-80 and 188-190). -/
def confirmedFlag (currentBlockNumber blockNumber R : Int) : Bool :=
  decide (currentBlockNumber - blockNumber ≥ R)

/-- `EthereumTx.update_with_block_and_receipt(block, receipt)`.  Modelled from the
spec: the model class itself is not part of the sources, the spec describes the
store-adapter operation `updateTransactionBlockAndReceipt` as the path that links a
previously block-less transaction ("observed before mined") to its block, with an
already block-linked row keeping its block. -/
def update_with_block_and_receipt (s : IndexDb) (tx : EthereumTx) (blk : EthereumBlock) :
    IndexDb × EthereumTx :=
  if tx.block.isNone then
    let tx' : EthereumTx := { tx with block := some blk.hash }
    ({ s with txs := s.txs.map (fun t => if t.tx_hash == tx.tx_hash then tx' else t) }, tx')
  else (s, tx)

/-- `EthereumTx.objects.create_from_tx_dict`: inserting a duplicate hash raises
`IntegrityError`, modelled as `none`. -/
def create_from_tx_dict (s : IndexDb) (t : TxData) (blk : EthereumBlock) :
    Option (IndexDb × EthereumTx) :=
  match findTx s t.hash with
  | some _ => none
  | none =>
    let tx : EthereumTx := ⟨t.hash, some blk.hash⟩
    some ({ s with txs := s.txs ++ [tx] }, tx)

/-- `IndexService.block_get_or_create_from_block_hash` (lines 70-83).  A `none`
result models the unhandled failure when the node does not know the block. -/
def block_get_or_create_from_block_hash (c : EthClient) (R : Int) (s : IndexDb) (h : Nat) :
    Option (IndexDb × EthereumBlock) :=
  match findBlock s h with
  | some blk => some (s, blk)
  | none =>
    match c.get_block h with
    | none => none
    | some bd =>
      some (get_or_create_from_block s bd (confirmedFlag c.current_block_number bd.number R))

/-- `IndexService.tx_create_or_update_from_tx_hash` (lines 85-104). -/
def tx_create_or_update_from_tx_hash (c : EthClient) (R : Int) (s : IndexDb) (h : Nat) :
    Option (IndexDb × EthereumTx) :=
  match findTx s h with
  | some tx =>
    match tx.block with
    | some _ => some (s, tx)
    | none =>
      match c.get_transaction_receipt h with
      | none => none
      | some rcpt =>
        match rcpt.blockHash with
        | none => none
        | some bh =>
          match block_get_or_create_from_block_hash c R s bh with
          | none => none
          | some sb => some (update_with_block_and_receipt sb.1 tx sb.2)
  | none =>
    match c.get_transaction_receipt h with
    | none => none
    | some rcpt =>
      match rcpt.blockHash with
      | none => none
      | some bh =>
        match block_get_or_create_from_block_hash c R s bh with
        | none => none
        | some sb =>
          match c.get_transaction h with
          | none => none
          | some t => create_from_tx_dict sb.1 t sb.2

/-- One step of `OrderedDict.fromkeys`: keep the first occurrence of each key. -/
def dedupStep (acc : List Nat) (h : Nat) : List Nat :=
  if h ∈ acc then acc else acc ++ [h]

/-- `OrderedDict.fromkeys(...)` key list: deduplication preserving first-seen order. -/
def dedupKeys (l : List Nat) : List Nat :=
  l.foldl dedupStep []

/-- The ordered dict of line 110: keys in first-occurrence order, values
`Option EthereumTx` (`none` is Python `None`). -/
abbrev TxDict := List (Nat × Option EthereumTx)

/-- `ethereum_txs_dict[k] = v`: update in place when the key exists, append otherwise
(Python dict semantics). -/
def dictSet (d : TxDict) (k : Nat) (v : EthereumTx) : TxDict :=
  if d.any (fun p => p.1 == k) then
    d.map (fun p => if p.1 == k then (k, some v) else p)
  else d ++ [(k, some v)]

/-- One iteration of the receipt loop (lines 132-149): the single-item fetch is
retried only when the batched entry is absent (`tx_receipt or ...`); a present
receipt without `blockNumber` fails without retry. -/
def resolveReceipt (c : EthClient) (h : Nat) (batched : Option TxReceipt) :
    Except IndexingException TxReceipt :=
  match (match batched with | some r => some r | none => c.get_transaction_receipt h) with
  | none => .error (.transactionNotFound h)
  | some r =>
    match r.blockNumber with
    | none => .error (.transactionWithoutBlock h)
    | some _ => .ok r

/-- The receipt loop over `zip(tx_hashes_not_in_db, get_transaction_receipts(...))`. -/
def resolveReceipts (c : EthClient) :
    List (Nat × Option TxReceipt) → Except IndexingException (List TxReceipt)
  | [] => .ok []
  | (h, br) :: rest =>
    match resolveReceipt c h br with
    | .error e => .error e
    | .ok r =>
      match resolveReceipts c rest with
      | .error e => .error e
      | .ok rs => .ok (r :: rs)

/-- One iteration of the transaction loop (lines 155-169): same retry policy. -/
def resolveTx (c : EthClient) (h : Nat) (batched : Option TxData) :
    Except IndexingException TxData :=
  match (match batched with | some t => some t | none => c.get_transaction h) with
  | none => .error (.transactionNotFound h)
  | some t =>
    match t.blockHash with
    | none => .error (.transactionWithoutBlock h)
    | some _ => .ok t

/-- The transaction loop over `zip(tx_hashes_not_in_db, get_transactions(...))`. -/
def resolveTxs (c : EthClient) :
    List (Nat × Option TxData) → Except IndexingException (List TxData)
  | [] => .ok []
  | (h, bt) :: rest =>
    match resolveTx c h bt with
    | .error e => .error e
    | .ok t =>
      match resolveTxs c rest with
      | .error e => .error e
      | .ok ts => .ok (t :: ts)

/-- One iteration of the block loop (lines 173-182), including the
`assert block_hash == block["hash"].hex()`. -/
def resolveBlockEntry (c : EthClient) (h : Nat) (batched : Option BlockData) :
    Except IndexingException BlockData :=
  match (match batched with | some b => some b | none => c.get_block h) with
  | none => .error (.blockNotFound h)
  | some b => if b.hash == h then .ok b else .error (.assertionFailed h)

/-- The block loop building `block_dict[block["hash"]] = block`. -/
def resolveBlocks (c : EthClient) :
    List (Nat × Option BlockData) → Except IndexingException (List (Nat × BlockData))
  | [] => .ok []
  | (h, bb) :: rest =>
    match resolveBlockEntry c h bb with
    | .error e => .error e
    | .ok b =>
      match resolveBlocks c rest with
      | .error e => .error e
      | .ok bdict => .ok ((b.hash, b) :: bdict)

/-- `block_dict[bh]`. -/
def lookupBlock (bdict : List (Nat × BlockData)) (h : Nat) : Option BlockData :=
  (bdict.find? (fun p => p.1 == h)).map (fun p => p.2)

/-- The create-or-update loop of lines 184-206: one write pass over the
`zip(txs, tx_receipts)` pairs, threading the store and the ordered dict.  A failed
`block_dict` lookup is Python's `KeyError`. -/
def writeTxs (R cur : Int) (blockDict : List (Nat × BlockData)) :
    List (TxData × TxReceipt) → IndexDb → TxDict →
      IndexDb × Except IndexingException TxDict
  | [], s, d => (s, .ok d)
  | (t, _) :: rest, s, d =>
    match t.blockHash with
    | none => (s, .error (.keyError 0))
    | some bh =>
      match lookupBlock blockDict bh with
      | none => (s, .error (.keyError bh))
      | some bd =>
        let p := get_or_create_from_block s bd (confirmedFlag cur bd.number R)
        match create_from_tx_dict p.1 t p.2 with
        | some q => writeTxs R cur blockDict rest q.1 (dictSet d q.2.tx_hash q.2)
        | none =>
          match findTx p.1 t.hash with
          | none => (p.1, .error (.keyError t.hash))
          | some tx0 =>
            let q := update_with_block_and_receipt p.1 tx0 p.2
            writeTxs R cur blockDict rest q.1 (dictSet d q.2.tx_hash q.2)

/-- `IndexService.txs_create_or_update_from_tx_hashes` (lines 106-207), returning the
possibly-updated store together with either the ordered dict values (`none` entries
are unfilled Python `None` values) or the raised exception.  The Python set
`block_hashes` is modelled as the insertion-ordered deduplicated list of the fetched
transactions' block hashes. -/
def txs_create_or_update_from_tx_hashes (c : EthClient) (R : Int) (s : IndexDb)
    (tx_hashes : List Nat) :
    IndexDb × Except IndexingException (List (Option EthereumTx)) :=
  let keys := dedupKeys tx_hashes
  let d0 : TxDict := keys.map (fun h => (h, none))
  let dbHits := s.txs.filter (fun t => decide (t.tx_hash ∈ tx_hashes) && t.block.isSome)
  let d1 := dbHits.foldl (fun d t => dictSet d t.tx_hash t) d0
  let missing := d1.filterMap (fun p => if p.2.isNone then some p.1 else none)
  if missing.isEmpty then (s, .ok (d1.map (fun p => p.2)))
  else
    match resolveReceipts c (missing.zip (c.get_transaction_receipts missing)) with
    | .error e => (s, .error e)
    | .ok receipts =>
      match resolveTxs c (missing.zip (c.get_transactions missing)) with
      | .error e => (s, .error e)
      | .ok fetchedTxs =>
        let blockHashes := dedupKeys (fetchedTxs.filterMap (fun t => t.blockHash))
        match resolveBlocks c (blockHashes.zip (c.get_blocks blockHashes)) with
        | .error e => (s, .error e)
        | .ok blockDict =>
          match writeTxs R c.current_block_number blockDict
              (fetchedTxs.zip receipts) s d1 with
          | (s1, .ok d2) => (s1, .ok (d2.map (fun p => p.2)))
          | (s1, .error e) => (s1, .error e)

/-- `MultisigConfirmation` row.  `safe` is the owning Safe address — the scoping
attribute the spec names; the reprocess code itself never filters confirmations
by address, which is what the counterexample below exhibits. -/
structure MultisigConfirmationRow where
  signature : Option Nat
  safe : Nat
deriving DecidableEq, Repr

/-- `MultisigTransaction` row: `ethereum_tx` is null for purely off-chain proposals. -/
structure MultisigTransactionRow where
  safe : Nat
  ethereum_tx : Option Nat
deriving DecidableEq, Repr

/-- `ModuleTransaction` row. -/
structure ModuleTransactionRow where
  safe : Nat
deriving DecidableEq, Repr

/-- `SafeStatus` row. -/
structure SafeStatusRow where
  address : Nat
deriving DecidableEq, Repr

/-- `InternalTxDecoded` row; `internal_tx_from` is `internal_tx___from`. -/
structure InternalTxDecodedRow where
  internal_tx_from : Nat
  processed : Bool
deriving DecidableEq, Repr

/-- The derived-entity tables touched by `_reprocess`. -/
structure DerivedDb where
  confirmations : List MultisigConfirmationRow
  multisigTxs : List MultisigTransactionRow
  moduleTxs : List ModuleTransactionRow
  safeStatuses : List SafeStatusRow
  internalTxsDecoded : List InternalTxDecodedRow
deriving DecidableEq, Repr

/-- Python truthiness of the `addresses` argument: `None` and `[]` are both falsy. -/
def addressesTruthy : Option (List Nat) → Bool
  | none => false
  | some l => !l.isEmpty

/-- The `if addresses: queryset = queryset.filter(...__in=addresses)` pattern: the
rows a scoped delete/update touches. -/
def scopeFilter (addresses : Option (List Nat)) (a : Nat) : Bool :=
  if addressesTruthy addresses then decide (a ∈ addresses.getD []) else true

/-- `IndexService._reprocess` (lines 209-245).  The signature-less confirmation
delete runs only in the `if not addresses` branch; every other table is
delete/update-scoped through `scopeFilter`. -/
def reprocessRun (addresses : Option (List Nat)) (db : DerivedDb) : DerivedDb where
  confirmations :=
    if addressesTruthy addresses then db.confirmations
    else db.confirmations.filter (fun cf => cf.signature.isSome)
  multisigTxs :=
    db.multisigTxs.filter (fun m => !(m.ethereum_tx.isSome && scopeFilter addresses m.safe))
  moduleTxs :=
    db.moduleTxs.filter (fun m => !(scopeFilter addresses m.safe))
  safeStatuses :=
    db.safeStatuses.filter (fun st => !(scopeFilter addresses st.address))
  internalTxsDecoded :=
    db.internalTxsDecoded.map (fun it =>
      if scopeFilter addresses it.internal_tx_from then { it with processed := false } else it)

/-- `IndexService.reprocess_addresses` (lines 247-258): explicit short-circuit on an
empty list, otherwise the shared invalidation run scoped to the addresses. -/
def reprocess_addresses (addresses : List Nat) (db : DerivedDb) : DerivedDb :=
  if addresses.isEmpty then db else reprocessRun (some addresses) db

/-- `IndexService.reprocess_all` (lines 260-261). -/
def reprocess_all (db : DerivedDb) : DerivedDb :=
  reprocessRun none db

/-- The indexer calls issued by the reindex loop, with the block range passed to each. -/
inductive CallEvent where
  | findRelevantElements (fromBlock toBlock : Nat)
  | processElements (fromBlock toBlock : Nat)
deriving DecidableEq, Repr

/-- Fuel-driven unfolding of the while loop of lines 316-321. -/
def chunkCallsAux : Nat → Nat → Nat → Nat → List CallEvent
  | 0, _, _, _ => []
  | fuel + 1, bn, stop, chunk =>
    if bn < stop then
      .findRelevantElements bn (bn + chunk) :: .processElements bn (bn + chunk) ::
        chunkCallsAux fuel (bn + chunk) stop chunk
    else []

/-- The chunked while loop: `stop - bn` bounds the iteration count whenever
`chunk > 0` (each pass advances the cursor by `chunk ≥ 1`); with `chunk = 0` the
source loops forever, so that case is cut off explicitly. -/
def chunkCalls (bn stop chunk : Nat) : List CallEvent :=
  if chunk == 0 then [] else chunkCallsAux (stop - bn) bn stop chunk

/-- Outcome of `reindex_master_copies`: the failed entry assertion, the
empty-address early exit, or the list of indexer calls issued. -/
inductive ReindexResult where
  | assertionError
  | noAddresses
  | ran (calls : List CallEvent)
deriving DecidableEq, Repr

/-- Python truthiness of the optional `to_block_number`: `None` and `0` are falsy. -/
def optNatTruthy : Option Nat → Bool
  | none => false
  | some n => n != 0

/-- `IndexService.reindex_master_copies` (lines 263-328), abstracted over the current
chain height and the indexer's tracked addresses; the result records the
`find_relevant_elements` / `process_elements` calls the loop issues.  The entry
assertion `(not to_block_number) or to_block_number > from_block_number` is
evaluated before anything else. -/
def reindex_master_copies (current_block_number : Nat) (tracked : List Nat)
    (from_block_number : Nat) (to_block_number : Option Nat)
    (block_process_limit : Nat) (addresses : Option (List Nat)) : ReindexResult :=
  if optNatTruthy to_block_number
      && !(decide (to_block_number.getD 0 > from_block_number)) then
    .assertionError
  else
    let addrs := if addressesTruthy addresses then addresses.getD [] else tracked
    if addrs.isEmpty then .noAddresses
    else
      let stop := if optNatTruthy to_block_number
        then min current_block_number (to_block_number.getD 0)
        else current_block_number
      .ran (chunkCalls from_block_number stop block_process_limit)

/-- C8: with `toBlock` given and not greater than `fromBlock` (Python truthiness:
given means nonzero), `reindex_master_copies` fails at its entry assertion for every
chain height, tracked-address list and address argument — i.e. before selecting an
indexer, resolving addresses, or issuing any chain call. -/
theorem C8_reindex_precondition (cur : Nat) (tracked : List Nat)
    (fromBlock toBlock chunk : Nat) (addresses : Option (List Nat))
    (h0 : toBlock ≠ 0) (hle : toBlock ≤ fromBlock) :
    reindex_master_copies cur tracked fromBlock (some toBlock) chunk addresses =
      ReindexResult.assertionError := by
  have h1 : optNatTruthy (some toBlock) = true := by
    simp [optNatTruthy, h0]
  have h2 : ¬ ((some toBlock).getD 0 > fromBlock) := by
    simpa [Option.getD] using Nat.not_lt.mpr hle
  unfold reindex_master_copies
  simp [h1, h2]
  intro h
  simp [Option.getD] at h2
  omega

/-- C8 witness: `reindexMasterCopies(100, 50)` is rejected at entry. -/
theorem C8_reindex_precondition_witness :
    reindex_master_copies 1000 [1, 2] 100 (some 50) 100 none =
      ReindexResult.assertionError :=
  C8_reindex_precondition 1000 [1, 2] 100 50 100 none (by decide) (by decide)

/-- C9: with the current chain height at least 250 and a non-empty address list,
`reindexMasterCopies(0, 250, chunkSize=100)` clamps the stop block to
`min(currentChainHeight, 250) = 250` and issues exactly three
`findRelevantElements` calls with ranges `(0,100)`, `(100,200)`, `(200,300)`, each
followed by a `processElements` call; the final chunk extends past the stop block. -/
theorem C9_reindex_chunking (cur : Nat) (tracked addrs : List Nat)
    (hcur : 250 ≤ cur) (haddrs : addrs ≠ []) :
    reindex_master_copies cur tracked 0 (some 250) 100 (some addrs) =
      ReindexResult.ran
        [CallEvent.findRelevantElements 0 100, CallEvent.processElements 0 100,
         CallEvent.findRelevantElements 100 200, CallEvent.processElements 100 200,
         CallEvent.findRelevantElements 200 300, CallEvent.processElements 200 300] ∧
    min cur 250 = 250 := by
  have hmin : min cur 250 = 250 := Nat.min_eq_right hcur
  have hE : addrs.isEmpty = false := by
    cases addrs
    · exact absurd rfl haddrs
    · rfl
  refine ⟨?_, hmin⟩
  unfold reindex_master_copies
  simp [optNatTruthy, addressesTruthy, hE, hmin]
  decide

/-- C9 witness at height exactly 250 with address list `[1]`. -/
theorem C9_reindex_chunking_witness :
    reindex_master_copies 250 [] 0 (some 250) 100 (some [1]) =
      ReindexResult.ran
        [CallEvent.findRelevantElements 0 100, CallEvent.processElements 0 100,
         CallEvent.findRelevantElements 100 200, CallEvent.processElements 100 200,
         CallEvent.findRelevantElements 200 300, CallEvent.processElements 200 300] :=
  (C9_reindex_chunking 250 [] [1] (by decide) (by decide)).1

/-- C10: a `toBlock` of 0 is falsy in the entry assertion and in the stop-block
computation, so `reindexMasterCopies(fromBlock, 0, ...)` is never rejected (even when
`fromBlock ≥ 0 = toBlock`) and behaves exactly like a call with no `toBlock`: the
stop block becomes the current chain height. -/
theorem C10_to_block_zero (cur : Nat) (tracked : List Nat) (fromBlock chunk : Nat)
    (addresses : Option (List Nat)) :
    reindex_master_copies cur tracked fromBlock (some 0) chunk addresses =
      reindex_master_copies cur tracked fromBlock none chunk addresses ∧
    reindex_master_copies cur tracked fromBlock (some 0) chunk addresses ≠
      ReindexResult.assertionError := by
  have h1 : reindex_master_copies cur tracked fromBlock (some 0) chunk addresses =
      reindex_master_copies cur tracked fromBlock none chunk addresses := rfl
  refine ⟨h1, ?_⟩
  rw [h1]
  unfold reindex_master_copies
  simp [optNatTruthy]
  split <;> split <;> simp

/-- A signature-less (chain-derived) confirmation owned by Safe address 7. -/
def c1Conf : MultisigConfirmationRow := ⟨none, 7⟩

/-- A derived store holding only that confirmation. -/
def c1Db : DerivedDb := ⟨[c1Conf], [], [], [], []⟩

/-- C1 counterexample: the confirmation lacks an off-chain signature and belongs to
the listed address 7, and the unscoped run would delete it, yet
`reprocess_addresses [7]` leaves it in place — the scoped invalidation never deletes
on-chain confirmation records, contrary to the claim. -/
theorem C1_reprocess_counterexample :
    c1Conf.signature = none ∧ c1Conf.safe = 7 ∧
    (reprocess_addresses [7] c1Db).confirmations = [c1Conf] ∧
    (reprocess_all c1Db).confirmations = [] :=
  ⟨rfl, rfl, rfl, rfl⟩

/-- C1 (amended): for a non-empty address list, the invalidation run by
`reprocess_addresses` deletes no on-chain confirmation record at all — every
confirmation row, including the signature-less ones belonging to the listed
addresses, is left untouched; only the unscoped `reprocess_all` deletes the
confirmation records lacking an off-chain signature. -/
theorem C1_reprocess_scoping (addrs : List Nat) (db : DerivedDb) (hne : addrs ≠ []) :
    (reprocess_addresses addrs db).confirmations = db.confirmations ∧
    (reprocess_all db).confirmations =
      db.confirmations.filter (fun cf => cf.signature.isSome) := by
  have hE : addrs.isEmpty = false := by
    cases addrs
    · exact absurd rfl hne
    · rfl
  have hT : addressesTruthy (some addrs) = true := by
    simp [addressesTruthy, hE]
  refine ⟨?_, ?_⟩
  · simp [reprocess_addresses, hE, reprocessRun, hT]
  · simp [reprocess_all, reprocessRun, addressesTruthy]

/-- C1 amended-claim witness at a concrete store and address list. -/
theorem C1_reprocess_scoping_witness :
    (reprocess_addresses [7] c1Db).confirmations = c1Db.confirmations :=
  (C1_reprocess_scoping [7] c1Db (by decide)).1

/-- `get_or_create_from_block` never touches the transaction table. -/
theorem get_or_create_txs_eq (s : IndexDb) (b : BlockData) (cf : Bool) :
    (get_or_create_from_block s b cf).1.txs = s.txs := by
  unfold get_or_create_from_block
  cases findBlock s b.hash <;> rfl

/-- Every block row after `get_or_create_from_block` is an old row or the freshly
created one, which carries the `confirmed` flag passed in. -/
theorem get_or_create_blocks_mem (s : IndexDb) (b : BlockData) (cf : Bool) :
    ∀ blk ∈ (get_or_create_from_block s b cf).1.blocks,
      blk ∈ s.blocks ∨ (blk.number = b.number ∧ blk.confirmed = cf) := by
  unfold get_or_create_from_block
  cases h : findBlock s b.hash with
  | some blk0 => exact fun blk hblk => Or.inl hblk
  | none =>
    intro blk hblk
    rcases List.mem_append.mp hblk with h1 | h1
    · exact Or.inl h1
    · rcases List.mem_singleton.mp h1 with rfl
      exact Or.inr ⟨rfl, rfl⟩

/-- `update_with_block_and_receipt` never touches the block table. -/
theorem update_blocks_eq (s : IndexDb) (tx : EthereumTx) (blk : EthereumBlock) :
    (update_with_block_and_receipt s tx blk).1.blocks = s.blocks := by
  unfold update_with_block_and_receipt
  split <;> rfl

/-- Every transaction row after `update_with_block_and_receipt` is an old row or has
a non-null block. -/
theorem update_txs_mem (s : IndexDb) (tx : EthereumTx) (blk : EthereumBlock) :
    ∀ t ∈ (update_with_block_and_receipt s tx blk).1.txs,
      t ∈ s.txs ∨ t.block.isSome = true := by
  unfold update_with_block_and_receipt
  split
  · intro t ht
    rcases List.mem_map.mp ht with ⟨t0, ht0, heq⟩
    by_cases hk : (t0.tx_hash == tx.tx_hash) = true
    · rw [hk] at heq
      simp only [if_true] at heq
      right
      rw [← heq]
      rfl
    · rw [Bool.not_eq_true] at hk
      rw [hk] at heq
      simp only [Bool.false_eq_true, if_false] at heq
      exact Or.inl (heq ▸ ht0)
  · exact fun t ht => Or.inl ht

/-- The updated row keeps its hash. -/
theorem update_tx_hash_eq (s : IndexDb) (tx : EthereumTx) (blk : EthereumBlock) :
    (update_with_block_and_receipt s tx blk).2.tx_hash = tx.tx_hash := by
  unfold update_with_block_and_receipt
  split <;> rfl

/-- A successful `create_from_tx_dict` leaves the block table alone. -/
theorem create_blocks_eq (s : IndexDb) (t : TxData) (blk : EthereumBlock)
    (q : IndexDb × EthereumTx) (h : create_from_tx_dict s t blk = some q) :
    q.1.blocks = s.blocks := by
  unfold create_from_tx_dict at h
  cases hf : findTx s t.hash with
  | some _ => rw [hf] at h; cases h
  | none =>
    rw [hf] at h
    cases h
    rfl

/-- Every transaction row after a successful `create_from_tx_dict` is an old row or
the fresh block-linked one; the fresh row carries the requested hash and a block. -/
theorem create_txs_mem (s : IndexDb) (t : TxData) (blk : EthereumBlock)
    (q : IndexDb × EthereumTx) (h : create_from_tx_dict s t blk = some q) :
    (∀ tr ∈ q.1.txs, tr ∈ s.txs ∨ tr.block.isSome = true) ∧
    q.2.tx_hash = t.hash ∧ q.2.block.isSome = true := by
  unfold create_from_tx_dict at h
  cases hf : findTx s t.hash with
  | some _ => rw [hf] at h; cases h
  | none =>
    rw [hf] at h
    cases h
    refine ⟨?_, rfl, rfl⟩
    intro tr htr
    rcases List.mem_append.mp htr with h1 | h1
    · exact Or.inl h1
    · rcases List.mem_singleton.mp h1 with rfl
      exact Or.inr rfl

/-- Step equation: a pair whose transaction lacks a block hash stops the loop. -/
theorem writeTxs_step_noblock (R cur : Int) (bD : List (Nat × BlockData))
    (t : TxData) (r : TxReceipt) (tl : List (TxData × TxReceipt))
    (s : IndexDb) (d : TxDict) (ht : t.blockHash = none) :
    writeTxs R cur bD ((t, r) :: tl) s d =
      (s, .error (.keyError 0)) := by
  simp only [writeTxs, ht]

/-- Step equation: a block hash missing from `block_dict` stops the loop. -/
theorem writeTxs_step_nolookup (R cur : Int) (bD : List (Nat × BlockData))
    (t : TxData) (r : TxReceipt) (tl : List (TxData × TxReceipt))
    (s : IndexDb) (d : TxDict) (bh : Nat)
    (ht : t.blockHash = some bh) (hlb : lookupBlock bD bh = none) :
    writeTxs R cur bD ((t, r) :: tl) s d =
      (s, .error (.keyError bh)) := by
  simp only [writeTxs, ht, hlb]

/-- Step equation: successful creation records the fresh row and continues. -/
theorem writeTxs_step_create (R cur : Int) (bD : List (Nat × BlockData))
    (t : TxData) (r : TxReceipt) (tl : List (TxData × TxReceipt))
    (s : IndexDb) (d : TxDict) (bh : Nat) (bd : BlockData) (q : IndexDb × EthereumTx)
    (ht : t.blockHash = some bh) (hlb : lookupBlock bD bh = some bd)
    (hc : create_from_tx_dict
        (get_or_create_from_block s bd (confirmedFlag cur bd.number R)).1 t
        (get_or_create_from_block s bd (confirmedFlag cur bd.number R)).2 = some q) :
    writeTxs R cur bD ((t, r) :: tl) s d =
      writeTxs R cur bD tl q.1 (dictSet d q.2.tx_hash q.2) := by
  simp only [writeTxs, ht, hlb, hc]

/-- Step equation for the `IntegrityError` handler: the pre-existing row is fetched,
merged with the block via `update_with_block_and_receipt`, recorded in the dict at
its hash, and the loop continues — the duplicate-key error is not propagated. -/
theorem writeTxs_step_integrity (R cur : Int) (bD : List (Nat × BlockData))
    (t : TxData) (r : TxReceipt) (tl : List (TxData × TxReceipt))
    (s : IndexDb) (d : TxDict) (bh : Nat) (bd : BlockData) (tx0 : EthereumTx)
    (ht : t.blockHash = some bh) (hlb : lookupBlock bD bh = some bd)
    (hc : create_from_tx_dict
        (get_or_create_from_block s bd (confirmedFlag cur bd.number R)).1 t
        (get_or_create_from_block s bd (confirmedFlag cur bd.number R)).2 = none)
    (hf : findTx (get_or_create_from_block s bd (confirmedFlag cur bd.number R)).1
        t.hash = some tx0) :
    writeTxs R cur bD ((t, r) :: tl) s d =
      writeTxs R cur bD tl
        (update_with_block_and_receipt
          (get_or_create_from_block s bd (confirmedFlag cur bd.number R)).1 tx0
          (get_or_create_from_block s bd (confirmedFlag cur bd.number R)).2).1
        (dictSet d
          (update_with_block_and_receipt
            (get_or_create_from_block s bd (confirmedFlag cur bd.number R)).1 tx0
            (get_or_create_from_block s bd (confirmedFlag cur bd.number R)).2).2.tx_hash
          (update_with_block_and_receipt
            (get_or_create_from_block s bd (confirmedFlag cur bd.number R)).1 tx0
            (get_or_create_from_block s bd (confirmedFlag cur bd.number R)).2).2) := by
  simp only [writeTxs, ht, hlb, hc, hf]

/-- Step equation: handler lookup miss (unreachable in sequential runs). -/
theorem writeTxs_step_handler_miss (R cur : Int) (bD : List (Nat × BlockData))
    (t : TxData) (r : TxReceipt) (tl : List (TxData × TxReceipt))
    (s : IndexDb) (d : TxDict) (bh : Nat) (bd : BlockData)
    (ht : t.blockHash = some bh) (hlb : lookupBlock bD bh = some bd)
    (hc : create_from_tx_dict
        (get_or_create_from_block s bd (confirmedFlag cur bd.number R)).1 t
        (get_or_create_from_block s bd (confirmedFlag cur bd.number R)).2 = none)
    (hf : findTx (get_or_create_from_block s bd (confirmedFlag cur bd.number R)).1
        t.hash = none) :
    writeTxs R cur bD ((t, r) :: tl) s d =
      ((get_or_create_from_block s bd (confirmedFlag cur bd.number R)).1,
        .error (.keyError t.hash)) := by
  simp only [writeTxs, ht, hlb, hc, hf]

/-- Every block row in the store after the write loop is an old row or was created
with the single-snapshot confirmation rule `confirmedFlag cur`. -/
theorem writeTxs_blocks_inv (R cur : Int) (bD : List (Nat × BlockData)) :
    ∀ (pairs : List (TxData × TxReceipt)) (s : IndexDb) (d : TxDict),
      ∀ blk ∈ (writeTxs R cur bD pairs s d).1.blocks,
        blk ∈ s.blocks ∨ blk.confirmed = confirmedFlag cur blk.number R := by
  intro pairs
  induction pairs with
  | nil => exact fun s d blk hblk => Or.inl hblk
  | cons hd tl ih =>
    obtain ⟨t, r⟩ := hd
    intro s d blk hblk
    cases ht : t.blockHash with
    | none =>
      rw [writeTxs_step_noblock R cur bD t r tl s d ht] at hblk
      exact Or.inl hblk
    | some bh =>
      cases hlb : lookupBlock bD bh with
      | none =>
        rw [writeTxs_step_nolookup R cur bD t r tl s d bh ht hlb] at hblk
        exact Or.inl hblk
      | some bd =>
        have hpblocks : ∀ b2 ∈
            (get_or_create_from_block s bd (confirmedFlag cur bd.number R)).1.blocks,
            b2 ∈ s.blocks ∨ b2.confirmed = confirmedFlag cur b2.number R := by
          intro b2 hb2
          rcases get_or_create_blocks_mem s bd (confirmedFlag cur bd.number R) b2 hb2
            with h1 | ⟨hn, hcf⟩
          · exact Or.inl h1
          · right
            rw [hcf, hn]
        cases hc : create_from_tx_dict
            (get_or_create_from_block s bd (confirmedFlag cur bd.number R)).1 t
            (get_or_create_from_block s bd (confirmedFlag cur bd.number R)).2 with
        | some q =>
          rw [writeTxs_step_create R cur bD t r tl s d bh bd q ht hlb hc] at hblk
          rcases ih q.1 (dictSet d q.2.tx_hash q.2) blk hblk with h1 | h1
          · rw [create_blocks_eq _ t _ q hc] at h1
            exact hpblocks blk h1
          · exact Or.inr h1
        | none =>
          cases hf : findTx
              (get_or_create_from_block s bd (confirmedFlag cur bd.number R)).1 t.hash with
          | none =>
            rw [writeTxs_step_handler_miss R cur bD t r tl s d bh bd ht hlb hc hf] at hblk
            exact hpblocks blk hblk
          | some tx0 =>
            rw [writeTxs_step_integrity R cur bD t r tl s d bh bd tx0 ht hlb hc hf] at hblk
            rcases ih _ _ blk hblk with h1 | h1
            · rw [update_blocks_eq _ tx0 _] at h1
              exact hpblocks blk h1
            · exact Or.inr h1

/-- Every transaction row in the store after the write loop is an old row or has a
non-null block. -/
theorem writeTxs_txs_inv (R cur : Int) (bD : List (Nat × BlockData)) :
    ∀ (pairs : List (TxData × TxReceipt)) (s : IndexDb) (d : TxDict),
      ∀ tr ∈ (writeTxs R cur bD pairs s d).1.txs,
        tr ∈ s.txs ∨ tr.block.isSome = true := by
  intro pairs
  induction pairs with
  | nil => exact fun s d tr htr => Or.inl htr
  | cons hd tl ih =>
    obtain ⟨t, r⟩ := hd
    intro s d tr htr
    cases ht : t.blockHash with
    | none =>
      rw [writeTxs_step_noblock R cur bD t r tl s d ht] at htr
      exact Or.inl htr
    | some bh =>
      cases hlb : lookupBlock bD bh with
      | none =>
        rw [writeTxs_step_nolookup R cur bD t r tl s d bh ht hlb] at htr
        exact Or.inl htr
      | some bd =>
        have hptxs :
            (get_or_create_from_block s bd (confirmedFlag cur bd.number R)).1.txs
              = s.txs :=
          get_or_create_txs_eq s bd (confirmedFlag cur bd.number R)
        cases hc : create_from_tx_dict
            (get_or_create_from_block s bd (confirmedFlag cur bd.number R)).1 t
            (get_or_create_from_block s bd (confirmedFlag cur bd.number R)).2 with
        | some q =>
          rw [writeTxs_step_create R cur bD t r tl s d bh bd q ht hlb hc] at htr
          rcases ih q.1 (dictSet d q.2.tx_hash q.2) tr htr with h1 | h1
          · rcases (create_txs_mem _ t _ q hc).1 tr h1 with h2 | h2
            · rw [hptxs] at h2
              exact Or.inl h2
            · exact Or.inr h2
          · exact Or.inr h1
        | none =>
          cases hf : findTx
              (get_or_create_from_block s bd (confirmedFlag cur bd.number R)).1 t.hash with
          | none =>
            rw [writeTxs_step_handler_miss R cur bD t r tl s d bh bd ht hlb hc hf] at htr
            rw [hptxs] at htr
            exact Or.inl htr
          | some tx0 =>
            rw [writeTxs_step_integrity R cur bD t r tl s d bh bd tx0 ht hlb hc hf] at htr
            rcases ih _ _ tr htr with h1 | h1
            · rcases update_txs_mem _ tx0 _ tr h1 with h2 | h2
              · rw [hptxs] at h2
                exact Or.inl h2
              · exact Or.inr h2
            · exact Or.inr h1

/-- The write loop can only fail with a `keyError`: the three documented indexing
exceptions are raised by the fetch phases, never during the write pass. -/
theorem writeTxs_error_kind (R cur : Int) (bD : List (Nat × BlockData)) :
    ∀ (pairs : List (TxData × TxReceipt)) (s : IndexDb) (d : TxDict)
      (s1 : IndexDb) (e : IndexingException),
      writeTxs R cur bD pairs s d = (s1, .error e) →
      ∃ k, e = .keyError k := by
  intro pairs
  induction pairs with
  | nil =>
    intro s d s1 e h
    cases h
  | cons hd tl ih =>
    obtain ⟨t, r⟩ := hd
    intro s d s1 e h
    cases ht : t.blockHash with
    | none =>
      rw [writeTxs_step_noblock R cur bD t r tl s d ht] at h
      cases h
      exact ⟨0, rfl⟩
    | some bh =>
      cases hlb : lookupBlock bD bh with
      | none =>
        rw [writeTxs_step_nolookup R cur bD t r tl s d bh ht hlb] at h
        cases h
        exact ⟨bh, rfl⟩
      | some bd =>
        cases hc : create_from_tx_dict
            (get_or_create_from_block s bd (confirmedFlag cur bd.number R)).1 t
            (get_or_create_from_block s bd (confirmedFlag cur bd.number R)).2 with
        | some q =>
          rw [writeTxs_step_create R cur bD t r tl s d bh bd q ht hlb hc] at h
          exact ih _ _ _ _ h
        | none =>
          cases hf : findTx
              (get_or_create_from_block s bd (confirmedFlag cur bd.number R)).1 t.hash with
          | none =>
            rw [writeTxs_step_handler_miss R cur bD t r tl s d bh bd ht hlb hc hf] at h
            cases h
            exact ⟨t.hash, rfl⟩
          | some tx0 =>
            rw [writeTxs_step_integrity R cur bD t r tl s d bh bd tx0 ht hlb hc hf] at h
            exact ih _ _ _ _ h

/-- Every block row in the store after a batch call is an old row or carries the
single-snapshot confirmation flag. -/
theorem txs_batch_blocks_inv (c : EthClient) (R : Int) (s : IndexDb) (hs : List Nat) :
    ∀ blk ∈ (txs_create_or_update_from_tx_hashes c R s hs).1.blocks,
      blk ∈ s.blocks ∨
        blk.confirmed = confirmedFlag c.current_block_number blk.number R := by
  intro blk hblk
  unfold txs_create_or_update_from_tx_hashes at hblk
  dsimp only at hblk
  split at hblk
  · exact Or.inl hblk
  · split at hblk
    · exact Or.inl hblk
    · split at hblk
      · exact Or.inl hblk
      · split at hblk
        · exact Or.inl hblk
        · split at hblk
          next s1 d2 heq =>
            have h5 := congrArg Prod.fst heq
            exact writeTxs_blocks_inv R c.current_block_number _ _ _ _ blk
              (h5.symm ▸ hblk)
          next s1 e heq =>
            have h5 := congrArg Prod.fst heq
            exact writeTxs_blocks_inv R c.current_block_number _ _ _ _ blk
              (h5.symm ▸ hblk)

/-- C3: a block persisted on a store miss by `block_get_or_create_from_block_hash`
has `confirmed = true` iff `currentHeight - number ≥ R`, with both boundary cases;
and every block persisted by the batch path satisfies the same rule against the
single height snapshot (old rows excepted). -/
theorem C3_confirmation_threshold :
    (∀ (c : EthClient) (R : Int) (s : IndexDb) (h : Nat) (bd : BlockData)
       (s' : IndexDb) (blk : EthereumBlock),
      findBlock s h = none → c.get_block h = some bd → bd.hash = h →
      block_get_or_create_from_block_hash c R s h = some (s', blk) →
      ((blk.confirmed = true ↔ c.current_block_number - bd.number ≥ R) ∧
       (c.current_block_number - bd.number = R → blk.confirmed = true) ∧
       (c.current_block_number - bd.number = R - 1 → blk.confirmed = false))) ∧
    (∀ (c : EthClient) (R : Int) (s : IndexDb) (hs : List Nat),
      ∀ blk ∈ (txs_create_or_update_from_tx_hashes c R s hs).1.blocks,
        blk ∈ s.blocks ∨
          (blk.confirmed = true ↔ c.current_block_number - blk.number ≥ R)) := by
  constructor
  · intro c R s h bd s' blk hfind hget hhash heq
    unfold block_get_or_create_from_block_hash get_or_create_from_block at heq
    simp only [hfind, hget, hhash] at heq
    cases heq
    refine ⟨?_, ?_, ?_⟩
    · simp [confirmedFlag]
    · intro hb
      simp [confirmedFlag, hb]
    · intro hb
      simp [confirmedFlag, hb]
  · intro c R s hs blk hblk
    rcases txs_batch_blocks_inv c R s hs blk hblk with h1 | h1
    · exact Or.inl h1
    · right
      rw [h1]
      simp [confirmedFlag]

/-- A client knowing one block of number 7 at height 10, for the C3 witness. -/
def c3Client : EthClient where
  current_block_number := 10
  get_block := fun h => if h == 5 then some ⟨5, 7⟩ else none
  get_transaction := fun _ => none
  get_transaction_receipt := fun _ => none
  get_blocks := fun l => l.map (fun _ => none)
  get_transactions := fun l => l.map (fun _ => none)
  get_transaction_receipts := fun l => l.map (fun _ => none)

/-- The empty store. -/
def emptyDb : IndexDb := ⟨[], []⟩

/-- C3 witness: at reorg depth 3 and height 10, the freshly created block of number 7
sits exactly on the boundary `currentHeight - H = R` and is confirmed. -/
theorem C3_confirmation_threshold_witness :
    ((⟨5, 7, true⟩ : EthereumBlock).confirmed = true ↔ (10 : Int) - 7 ≥ 3) ∧
    ((⟨5, 7, true⟩ : EthereumBlock) ∈ (⟨[⟨5, 7, true⟩], []⟩ : IndexDb).blocks ∨
      ((⟨5, 7, true⟩ : EthereumBlock).confirmed = true ↔ (10 : Int) - 7 ≥ 3)) :=
  ⟨(C3_confirmation_threshold.1 c3Client 3 emptyDb 5 ⟨5, 7⟩ ⟨[⟨5, 7, true⟩], []⟩
      ⟨5, 7, true⟩ rfl rfl rfl rfl).1,
   C3_confirmation_threshold.2 c3Client 3 ⟨[⟨5, 7, true⟩], []⟩ []
     ⟨5, 7, true⟩ (by decide)⟩

/-- A failing batch call either returns the untouched store or failed with a
`keyError` inside the write loop. -/
theorem txs_batch_error_store (c : EthClient) (R : Int) (s : IndexDb) (hs : List Nat) :
    ∀ (s1 : IndexDb) (e : IndexingException),
      txs_create_or_update_from_tx_hashes c R s hs = (s1, .error e) →
      s1 = s ∨ ∃ k, e = IndexingException.keyError k := by
  intro s1 e hE
  unfold txs_create_or_update_from_tx_hashes at hE
  dsimp only at hE
  split at hE
  · cases hE
  · split at hE
    · cases hE
      exact Or.inl rfl
    · split at hE
      · cases hE
        exact Or.inl rfl
      · split at hE
        · cases hE
          exact Or.inl rfl
        · split at hE
          next s2 d2 heq => cases hE
          next s2 e2 heq =>
            cases hE
            exact Or.inr (writeTxs_error_kind R c.current_block_number _ _ s _ _ _ heq)

/-- C6: when the batch call aborts with `TransactionNotFound`,
`TransactionWithoutBlock` or `BlockNotFound`, the store is left exactly as it was:
those exceptions are raised by the fetch phases, which all run before any block or
transaction row is created or updated. -/
theorem C6_no_partial_writes (c : EthClient) (R : Int) (s : IndexDb) (hs : List Nat)
    (e : IndexingException) (h : Nat)
    (herr : (txs_create_or_update_from_tx_hashes c R s hs).2 = Except.error e)
    (hkind : e = IndexingException.transactionNotFound h ∨
      e = IndexingException.transactionWithoutBlock h ∨
      e = IndexingException.blockNotFound h) :
    (txs_create_or_update_from_tx_hashes c R s hs).1 = s := by
  have hres : txs_create_or_update_from_tx_hashes c R s hs =
      ((txs_create_or_update_from_tx_hashes c R s hs).1, Except.error e) := by
    rw [← herr]
  rcases txs_batch_error_store c R s hs _ e hres with h1 | ⟨k, hk⟩
  · exact h1
  · rcases hkind with h2 | h2 | h2 <;> rw [h2] at hk <;> cases hk

/-- C6 witness: a batch over an unknown hash aborts with `TransactionNotFound` and
leaves the empty store empty. -/
theorem C6_no_partial_writes_witness :
    (txs_create_or_update_from_tx_hashes c3Client 3 emptyDb [1]).1 = emptyDb :=
  C6_no_partial_writes c3Client 3 emptyDb [1]
    (IndexingException.transactionNotFound 1) 1 rfl (Or.inl rfl)

/-- `block_get_or_create_from_block_hash` never touches the transaction table. -/
theorem block_goc_txs_eq (c : EthClient) (R : Int) (s : IndexDb) (h : Nat)
    (sb : IndexDb × EthereumBlock)
    (hres : block_get_or_create_from_block_hash c R s h = some sb) :
    sb.1.txs = s.txs := by
  unfold block_get_or_create_from_block_hash at hres
  split at hres
  · cases hres
    rfl
  · split at hres
    · cases hres
    · cases hres
      exact get_or_create_txs_eq s _ _

/-- Every transaction row in the store after a batch call is an old row or has a
non-null block. -/
theorem txs_batch_txs_inv (c : EthClient) (R : Int) (s : IndexDb) (hs : List Nat) :
    ∀ t ∈ (txs_create_or_update_from_tx_hashes c R s hs).1.txs,
      t ∈ s.txs ∨ t.block.isSome = true := by
  intro t ht
  unfold txs_create_or_update_from_tx_hashes at ht
  dsimp only at ht
  split at ht
  · exact Or.inl ht
  · split at ht
    · exact Or.inl ht
    · split at ht
      · exact Or.inl ht
      · split at ht
        · exact Or.inl ht
        · split at ht
          next s1 d2 heq =>
            have h5 := congrArg Prod.fst heq
            exact writeTxs_txs_inv R c.current_block_number _ _ _ _ t (h5.symm ▸ ht)
          next s1 e heq =>
            have h5 := congrArg Prod.fst heq
            exact writeTxs_txs_inv R c.current_block_number _ _ _ _ t (h5.symm ▸ ht)

/-- C7: a stored transaction with a non-null block is returned as-is by the single
path — for every client, so no fetch can be involved, and the store is unchanged;
and neither the single nor the batch path ever turns a row's non-null block into
null: every row after a call is an unchanged old row or is block-linked. -/
theorem C7_block_never_reset :
    (∀ (c : EthClient) (R : Int) (s : IndexDb) (h : Nat) (tx : EthereumTx),
      findTx s h = some tx → tx.block.isSome = true →
      tx_create_or_update_from_tx_hash c R s h = some (s, tx)) ∧
    (∀ (c : EthClient) (R : Int) (s : IndexDb) (h : Nat) (r : IndexDb × EthereumTx),
      tx_create_or_update_from_tx_hash c R s h = some r →
      ∀ t ∈ r.1.txs, t ∈ s.txs ∨ t.block.isSome = true) ∧
    (∀ (c : EthClient) (R : Int) (s : IndexDb) (hs : List Nat),
      ∀ t ∈ (txs_create_or_update_from_tx_hashes c R s hs).1.txs,
        t ∈ s.txs ∨ t.block.isSome = true) := by
  refine ⟨?_, ?_, ?_⟩
  · intro c R s h tx hfind hsome
    obtain ⟨b, hb⟩ := Option.isSome_iff_exists.mp hsome
    unfold tx_create_or_update_from_tx_hash
    simp only [hfind, hb]
  · intro c R s h r hres t ht
    unfold tx_create_or_update_from_tx_hash at hres
    split at hres
    next tx hf =>
      split at hres
      · cases hres
        exact Or.inl ht
      next hb =>
        split at hres
        · cases hres
        next rcpt hrc =>
          split at hres
          · cases hres
          next bh hbh =>
            split at hres
            · cases hres
            next sb hgo =>
              cases hres
              rcases update_txs_mem sb.1 tx sb.2 t ht with h1 | h1
              · rw [block_goc_txs_eq c R s bh sb hgo] at h1
                exact Or.inl h1
              · exact Or.inr h1
    next hf =>
      split at hres
      · cases hres
      next rcpt hrc =>
        split at hres
        · cases hres
        next bh hbh =>
          split at hres
          · cases hres
          next sb hgo =>
            split at hres
            · cases hres
            next t0 hgt =>
              rcases (create_txs_mem sb.1 t0 sb.2 r hres).1 t ht with h1 | h1
              · rw [block_goc_txs_eq c R s bh sb hgo] at h1
                exact Or.inl h1
              · exact Or.inr h1
  · exact txs_batch_txs_inv

/-- A store holding one block-linked transaction, for the C7 witness. -/
def c7Db : IndexDb := ⟨[], [⟨9, some 3⟩]⟩

/-- C7 witness: the block-linked row 9 is returned as-is with the store unchanged,
and both paths keep every row old-or-block-linked at a concrete store. -/
theorem C7_block_never_reset_witness :
    tx_create_or_update_from_tx_hash c3Client 3 c7Db 9 = some (c7Db, ⟨9, some 3⟩) ∧
    ((⟨9, some 3⟩ : EthereumTx) ∈ c7Db.txs ∨
      (⟨9, some 3⟩ : EthereumTx).block.isSome = true) ∧
    ((⟨9, some 3⟩ : EthereumTx) ∈ c7Db.txs ∨
      (⟨9, some 3⟩ : EthereumTx).block.isSome = true) :=
  ⟨C7_block_never_reset.1 c3Client 3 c7Db 9 ⟨9, some 3⟩ rfl rfl,
   C7_block_never_reset.2.1 c3Client 3 c7Db 9 (c7Db, ⟨9, some 3⟩) rfl
     ⟨9, some 3⟩ (by decide),
   C7_block_never_reset.2.2 c3Client 3 c7Db [] ⟨9, some 3⟩ (by decide)⟩

/-- C5: when the row for the fetched transaction's hash already exists,
`create_from_tx_dict` fails with the duplicate-key error, but the write loop does
not propagate it: it fetches the pre-existing row, merges the block and receipt in
via `update_with_block_and_receipt`, stores the merged row in the result dict at the
hash's position, and continues with the remaining pairs. -/
theorem C5_duplicate_key_recovery (R cur : Int) (bD : List (Nat × BlockData))
    (t : TxData) (r : TxReceipt) (tl : List (TxData × TxReceipt))
    (s : IndexDb) (d : TxDict) (bh : Nat) (bd : BlockData) (tx0 : EthereumTx)
    (ht : t.blockHash = some bh) (hlb : lookupBlock bD bh = some bd)
    (hex : findTx s t.hash = some tx0) :
    create_from_tx_dict
        (get_or_create_from_block s bd (confirmedFlag cur bd.number R)).1 t
        (get_or_create_from_block s bd (confirmedFlag cur bd.number R)).2 = none ∧
    (update_with_block_and_receipt
        (get_or_create_from_block s bd (confirmedFlag cur bd.number R)).1 tx0
        (get_or_create_from_block s bd (confirmedFlag cur bd.number R)).2).2.tx_hash
      = t.hash ∧
    writeTxs R cur bD ((t, r) :: tl) s d =
      writeTxs R cur bD tl
        (update_with_block_and_receipt
          (get_or_create_from_block s bd (confirmedFlag cur bd.number R)).1 tx0
          (get_or_create_from_block s bd (confirmedFlag cur bd.number R)).2).1
        (dictSet d t.hash
          (update_with_block_and_receipt
            (get_or_create_from_block s bd (confirmedFlag cur bd.number R)).1 tx0
            (get_or_create_from_block s bd (confirmedFlag cur bd.number R)).2).2) := by
  have hfp : findTx (get_or_create_from_block s bd (confirmedFlag cur bd.number R)).1
      t.hash = some tx0 := by
    unfold findTx
    rw [get_or_create_txs_eq]
    exact hex
  have hcreate : create_from_tx_dict
      (get_or_create_from_block s bd (confirmedFlag cur bd.number R)).1 t
      (get_or_create_from_block s bd (confirmedFlag cur bd.number R)).2 = none := by
    unfold create_from_tx_dict
    rw [hfp]
  have hhash0 : tx0.tx_hash = t.hash := by
    unfold findTx at hex
    have h9 := List.find?_some hex
    simpa using h9
  have hhash : (update_with_block_and_receipt
      (get_or_create_from_block s bd (confirmedFlag cur bd.number R)).1 tx0
      (get_or_create_from_block s bd (confirmedFlag cur bd.number R)).2).2.tx_hash
      = t.hash := by
    rw [update_tx_hash_eq]
    exact hhash0
  refine ⟨hcreate, hhash, ?_⟩
  rw [writeTxs_step_integrity R cur bD t r tl s d bh bd tx0 ht hlb hcreate hfp, hhash]

/-- C5 witness: a store holding an unmined row 5 recovers from the duplicate-key
failure and the merged row keeps hash 5. -/
theorem C5_duplicate_key_recovery_witness :
    (update_with_block_and_receipt
        (get_or_create_from_block ⟨[], [⟨5, none⟩]⟩ ⟨30, 8⟩ (confirmedFlag 10 8 1)).1
        ⟨5, none⟩
        (get_or_create_from_block ⟨[], [⟨5, none⟩]⟩ ⟨30, 8⟩
          (confirmedFlag 10 8 1)).2).2.tx_hash = 5 :=
  (C5_duplicate_key_recovery 1 10 [(30, ⟨30, 8⟩)] ⟨5, some 30⟩ ⟨some 8, some 30⟩ []
    ⟨[], [⟨5, none⟩]⟩ [(5, none)] 30 ⟨30, 8⟩ ⟨5, none⟩ rfl rfl rfl).2.1

/-- A mined receipt for hash 5 on the single-fetch endpoint. -/
def c4GoodReceipt : TxReceipt := ⟨some 9, some 30⟩

/-- A present but block-less receipt for hash 5 on the batched endpoint. -/
def c4BadReceipt : TxReceipt := ⟨none, none⟩

/-- A client whose batched receipt endpoint answers a block-less receipt for hash 5
while the single-item endpoint has the mined one. -/
def c4Client : EthClient where
  current_block_number := 100
  get_block := fun _ => none
  get_transaction := fun _ => none
  get_transaction_receipt := fun h => if h == 5 then some c4GoodReceipt else none
  get_blocks := fun l => l.map (fun _ => none)
  get_transactions := fun l => l.map (fun _ => none)
  get_transaction_receipts := fun l =>
    l.map (fun h => if h == 5 then some c4BadReceipt else none)

/-- C4 counterexample: the batched receipt for hash 5 is present but block-less; the
claim says such a result is retried once with a single-item fetch — which here would
return the mined receipt — but the call aborts with `TransactionWithoutBlock`
without consulting the single fetch: only absent entries are retried. -/
theorem C4_retry_counterexample :
    c4Client.get_transaction_receipts [5] = [some c4BadReceipt] ∧
    c4BadReceipt.blockNumber = none ∧
    c4Client.get_transaction_receipt 5 = some c4GoodReceipt ∧
    c4GoodReceipt.blockNumber = some 9 ∧
    (txs_create_or_update_from_tx_hashes c4Client 1 emptyDb [5]).2 =
      Except.error (IndexingException.transactionWithoutBlock 5) :=
  ⟨rfl, rfl, rfl, rfl, rfl⟩

/-- C4 (amended): only an absent batched entry is retried, exactly once, via the
single-item fetch (`x or retry`): an absent retry result gives
`TransactionNotFound` (receipts/transactions) or `BlockNotFound` (blocks), a
block-less receipt/transaction — whether from the batch or from the retry — gives
`TransactionWithoutBlock`, and a present but block-less batched entry fails
immediately, independently of the client, i.e. without any retry fetch. -/
theorem C4_single_retry :
    (∀ (c : EthClient) (h : Nat),
      c.get_transaction_receipt h = none →
      resolveReceipt c h none =
        .error (IndexingException.transactionNotFound h)) ∧
    (∀ (c : EthClient) (h : Nat) (rc : TxReceipt),
      c.get_transaction_receipt h = some rc → rc.blockNumber = none →
      resolveReceipt c h none =
        .error (IndexingException.transactionWithoutBlock h)) ∧
    (∀ (c : EthClient) (h : Nat) (rc : TxReceipt) (n : Int),
      c.get_transaction_receipt h = some rc → rc.blockNumber = some n →
      resolveReceipt c h none = .ok rc) ∧
    (∀ (c c' : EthClient) (h : Nat) (rc : TxReceipt),
      rc.blockNumber = none →
      resolveReceipt c h (some rc) =
          .error (IndexingException.transactionWithoutBlock h) ∧
        resolveReceipt c h (some rc) = resolveReceipt c' h (some rc)) ∧
    (∀ (c : EthClient) (h : Nat),
      c.get_transaction h = none →
      resolveTx c h none = .error (IndexingException.transactionNotFound h)) ∧
    (∀ (c : EthClient) (h : Nat) (t : TxData),
      c.get_transaction h = some t → t.blockHash = none →
      resolveTx c h none = .error (IndexingException.transactionWithoutBlock h)) ∧
    (∀ (c : EthClient) (h : Nat) (t : TxData) (bh : Nat),
      c.get_transaction h = some t → t.blockHash = some bh →
      resolveTx c h none = .ok t) ∧
    (∀ (c c' : EthClient) (h : Nat) (t : TxData),
      t.blockHash = none →
      resolveTx c h (some t) =
          .error (IndexingException.transactionWithoutBlock h) ∧
        resolveTx c h (some t) = resolveTx c' h (some t)) ∧
    (∀ (c : EthClient) (h : Nat),
      c.get_block h = none →
      resolveBlockEntry c h none = .error (IndexingException.blockNotFound h)) ∧
    (∀ (c : EthClient) (h : Nat) (b : BlockData),
      c.get_block h = some b → b.hash = h →
      resolveBlockEntry c h none = .ok b) := by
  refine ⟨?_, ?_, ?_, ?_, ?_, ?_, ?_, ?_, ?_, ?_⟩ <;>
    intros <;> simp_all [resolveReceipt, resolveTx, resolveBlockEntry]

/-- A client exercising the remaining retry branches for the C4 witness. -/
def c4bClient : EthClient where
  current_block_number := 100
  get_block := fun _ => none
  get_transaction := fun h =>
    if h == 5 then some ⟨5, none⟩ else if h == 6 then some ⟨6, some 30⟩ else none
  get_transaction_receipt := fun h => if h == 5 then some c4BadReceipt else none
  get_blocks := fun l => l.map (fun _ => none)
  get_transactions := fun l => l.map (fun _ => none)
  get_transaction_receipts := fun l => l.map (fun _ => none)

/-- C4 amended-claim witness: every branch of the retry policy at concrete clients. -/
theorem C4_single_retry_witness :
    resolveReceipt c3Client 5 none =
      Except.error (IndexingException.transactionNotFound 5) ∧
    resolveReceipt c4bClient 5 none =
      Except.error (IndexingException.transactionWithoutBlock 5) ∧
    resolveReceipt c4Client 5 none = Except.ok c4GoodReceipt ∧
    (resolveReceipt c4Client 5 (some c4BadReceipt) =
        Except.error (IndexingException.transactionWithoutBlock 5) ∧
      resolveReceipt c4Client 5 (some c4BadReceipt) =
        resolveReceipt c3Client 5 (some c4BadReceipt)) ∧
    resolveTx c3Client 5 none =
      Except.error (IndexingException.transactionNotFound 5) ∧
    resolveTx c4bClient 5 none =
      Except.error (IndexingException.transactionWithoutBlock 5) ∧
    resolveTx c4bClient 6 none = Except.ok ⟨6, some 30⟩ ∧
    (resolveTx c4Client 5 (some ⟨5, none⟩) =
        Except.error (IndexingException.transactionWithoutBlock 5) ∧
      resolveTx c4Client 5 (some ⟨5, none⟩) =
        resolveTx c3Client 5 (some ⟨5, none⟩)) ∧
    resolveBlockEntry c4bClient 7 none =
      Except.error (IndexingException.blockNotFound 7) ∧
    resolveBlockEntry c3Client 5 none = Except.ok ⟨5, 7⟩ :=
  ⟨C4_single_retry.1 c3Client 5 rfl,
   C4_single_retry.2.1 c4bClient 5 c4BadReceipt rfl rfl,
   C4_single_retry.2.2.1 c4Client 5 c4GoodReceipt 9 rfl rfl,
   C4_single_retry.2.2.2.1 c4Client c3Client 5 c4BadReceipt rfl,
   C4_single_retry.2.2.2.2.1 c3Client 5 rfl,
   C4_single_retry.2.2.2.2.2.1 c4bClient 5 ⟨5, none⟩ rfl rfl,
   C4_single_retry.2.2.2.2.2.2.1 c4bClient 6 ⟨6, some 30⟩ 30 rfl rfl,
   C4_single_retry.2.2.2.2.2.2.2.1 c4Client c3Client 5 ⟨5, none⟩ rfl,
   C4_single_retry.2.2.2.2.2.2.2.2.1 c4bClient 7 rfl,
   C4_single_retry.2.2.2.2.2.2.2.2.2 c3Client 5 ⟨5, 7⟩ rfl rfl⟩

/-- Folding `dedupStep` collects exactly the members of the accumulator and list. -/
theorem mem_dedupAux (l : List Nat) :
    ∀ (acc : List Nat) (a : Nat),
      (a ∈ l.foldl dedupStep acc ↔ a ∈ acc ∨ a ∈ l) := by
  induction l with
  | nil => simp
  | cons h t ih =>
    intro acc a
    rw [List.foldl_cons, ih]
    unfold dedupStep
    rw [List.mem_cons]
    by_cases hm : h ∈ acc
    · rw [if_pos hm]
      constructor
      · rintro (ha | ha)
        · exact Or.inl ha
        · exact Or.inr (Or.inr ha)
      · rintro (ha | rfl | ha)
        · exact Or.inl ha
        · exact Or.inl hm
        · exact Or.inr ha
    · rw [if_neg hm]
      constructor
      · rintro (ha | ha)
        · rcases List.mem_append.mp ha with h1 | h1
          · exact Or.inl h1
          · exact Or.inr (Or.inl (List.mem_singleton.mp h1))
        · exact Or.inr (Or.inr ha)
      · rintro (ha | rfl | ha)
        · exact Or.inl (List.mem_append.mpr (Or.inl ha))
        · exact Or.inl (List.mem_append.mpr (Or.inr (List.mem_singleton.mpr rfl)))
        · exact Or.inr ha

/-- `dedupKeys` preserves membership. -/
theorem mem_dedupKeys (l : List Nat) (a : Nat) : a ∈ dedupKeys l ↔ a ∈ l := by
  unfold dedupKeys
  rw [mem_dedupAux]
  simp

/-- Setting an existing key leaves the ordered key list unchanged. -/
theorem dictSet_fst (d : TxDict) (k : Nat) (v : EthereumTx)
    (hk : k ∈ d.map Prod.fst) :
    (dictSet d k v).map Prod.fst = d.map Prod.fst := by
  unfold dictSet
  have hany : d.any (fun p => p.1 == k) = true := by
    rw [List.any_eq_true]
    rcases List.mem_map.mp hk with ⟨p, hp, heq⟩
    exact ⟨p, hp, by simpa using heq⟩
  rw [if_pos hany, List.map_map]
  apply List.map_congr_left
  intro p hp
  by_cases hpk : (p.1 == k) = true
  · simp only [Function.comp_apply, hpk, if_true]
    have hpe : p.1 = k := by simpa using hpk
    exact hpe.symm
  · simp only [Function.comp_apply]
    rw [if_neg hpk]

/-- Entries of an updated dict: the new binding or an untouched old one. -/
theorem mem_dictSet (d : TxDict) (k : Nat) (v : EthereumTx)
    (p : Nat × Option EthereumTx) (hp : p ∈ dictSet d k v) :
    p = (k, some v) ∨ (p ∈ d ∧ p.1 ≠ k) := by
  unfold dictSet at hp
  by_cases hany : d.any (fun q => q.1 == k) = true
  · rw [if_pos hany] at hp
    rcases List.mem_map.mp hp with ⟨q, hq, heq⟩
    by_cases hqk : (q.1 == k) = true
    · rw [if_pos hqk] at heq
      exact Or.inl heq.symm
    · rw [if_neg hqk] at heq
      right
      refine ⟨heq ▸ hq, ?_⟩
      rw [← heq]
      intro hcontra
      exact hqk (by simpa using hcontra)
  · rw [if_neg hany] at hp
    rcases List.mem_append.mp hp with h1 | h1
    · right
      refine ⟨h1, ?_⟩
      intro hcontra
      apply hany
      rw [List.any_eq_true]
      exact ⟨p, h1, by simpa using hcontra⟩
    · exact Or.inl (List.mem_singleton.mp h1)

/-- Filling database hits never changes the ordered key list. -/
theorem foldl_dictSet_fst (rows : List EthereumTx) :
    ∀ (d : TxDict), (∀ t ∈ rows, t.tx_hash ∈ d.map Prod.fst) →
      (rows.foldl (fun d t => dictSet d t.tx_hash t) d).map Prod.fst =
        d.map Prod.fst := by
  induction rows with
  | nil => intro d _; rfl
  | cons t0 tl ih =>
    intro d hmem
    rw [List.foldl_cons]
    have h1 : (dictSet d t0.tx_hash t0).map Prod.fst = d.map Prod.fst :=
      dictSet_fst d t0.tx_hash t0 (hmem t0 (List.mem_cons_self t0 tl))
    have h2 : ∀ t ∈ tl, t.tx_hash ∈ (dictSet d t0.tx_hash t0).map Prod.fst := by
      intro t ht
      rw [h1]
      exact hmem t (List.mem_cons_of_mem t0 ht)
    rw [ih _ h2, h1]

/-- Filling database hits keeps every stored value keyed by its own hash. -/
theorem foldl_dictSet_vals (rows : List EthereumTx) :
    ∀ (d : TxDict), (∀ p ∈ d, ∀ tx, p.2 = some tx → tx.tx_hash = p.1) →
      ∀ p ∈ rows.foldl (fun d t => dictSet d t.tx_hash t) d,
        ∀ tx, p.2 = some tx → tx.tx_hash = p.1 := by
  induction rows with
  | nil => intro d hd; exact hd
  | cons t0 tl ih =>
    intro d hd
    rw [List.foldl_cons]
    apply ih
    intro p hp tx htx
    rcases mem_dictSet d t0.tx_hash t0 p hp with h1 | ⟨h1, _⟩
    · subst h1
      cases htx
      rfl
    · exact hd p h1 tx htx

/-- A successful receipt loop yields one receipt per pair. -/
theorem resolveReceipts_length (c : EthClient) :
    ∀ (pairs : List (Nat × Option TxReceipt)) (rs : List TxReceipt),
      resolveReceipts c pairs = .ok rs → rs.length = pairs.length := by
  intro pairs
  induction pairs with
  | nil =>
    intro rs h
    cases h
    rfl
  | cons hd tl ih =>
    obtain ⟨h, br⟩ := hd
    intro rs hres
    unfold resolveReceipts at hres
    split at hres
    · cases hres
    next r heq =>
      split at hres
      · cases hres
      next rs2 heq2 =>
        cases hres
        simp [ih rs2 heq2]

/-- A transaction accepted by the loop body carries the requested hash, provided the
batched entry (when present) and the single fetch do. -/
theorem resolveTx_ok_hash (c : EthClient)
    (hsingle : ∀ (h : Nat) (t : TxData), c.get_transaction h = some t → t.hash = h)
    (h : Nat) (bt : Option TxData) (t0 : TxData)
    (hbatch : ∀ t, bt = some t → t.hash = h)
    (hres : resolveTx c h bt = .ok t0) : t0.hash = h := by
  unfold resolveTx at hres
  cases bt with
  | some tb =>
    cases hbh : tb.blockHash with
    | none =>
      simp only [hbh] at hres
      cases hres
    | some bh =>
      simp only [hbh] at hres
      cases hres
      exact hbatch t0 rfl
  | none =>
    cases hg : c.get_transaction h with
    | none =>
      simp only [hg] at hres
      cases hres
    | some tg =>
      simp only [hg] at hres
      cases hbh : tg.blockHash with
      | none =>
        simp only [hbh] at hres
        cases hres
      | some bh =>
        simp only [hbh] at hres
        cases hres
        exact hsingle h t0 hg

/-- A successful transaction loop returns, in order, one transaction per requested
hash, each carrying that hash. -/
theorem resolveTxs_hashes (c : EthClient)
    (hsingle : ∀ (h : Nat) (t : TxData), c.get_transaction h = some t → t.hash = h) :
    ∀ (pairs : List (Nat × Option TxData)) (ts : List TxData),
      (∀ (h : Nat) (t : TxData), (h, some t) ∈ pairs → t.hash = h) →
      resolveTxs c pairs = .ok ts →
      ts.map (fun t => t.hash) = pairs.map Prod.fst := by
  intro pairs
  induction pairs with
  | nil =>
    intro ts _ h
    cases h
    rfl
  | cons hd tl ih =>
    obtain ⟨h, bt⟩ := hd
    intro ts hbatch hres
    unfold resolveTxs at hres
    split at hres
    · cases hres
    next t0 heq =>
      split at hres
      · cases hres
      next ts2 heq2 =>
        cases hres
        have hh : t0.hash = h :=
          resolveTx_ok_hash c hsingle h bt t0
            (fun t htb => hbatch h t (htb ▸ List.mem_cons_self (h, bt) tl)) heq
        have htl := ih ts2
          (fun h' t' hmem => hbatch h' t' (List.mem_cons_of_mem (h, bt) hmem)) heq2
        simp [hh, htl]

/-- Master invariant of the write loop: on success the ordered dict keeps exactly its
key list, every stored value is keyed by its own hash, and — when every key was
either already filled or is covered by a pending pair — every entry ends filled. -/
theorem writeTxs_dict_ok (R cur : Int) (bD : List (Nat × BlockData)) :
    ∀ (pairs : List (TxData × TxReceipt)) (s : IndexDb) (d : TxDict)
      (s1 : IndexDb) (d2 : TxDict),
      writeTxs R cur bD pairs s d = (s1, .ok d2) →
      (∀ tr ∈ pairs, tr.1.hash ∈ d.map Prod.fst) →
      (∀ p ∈ d, ∀ tx, p.2 = some tx → tx.tx_hash = p.1) →
      (∀ p ∈ d, p.2.isSome = true ∨ p.1 ∈ pairs.map (fun tr => tr.1.hash)) →
      d2.map Prod.fst = d.map Prod.fst ∧
      (∀ p ∈ d2, ∀ tx, p.2 = some tx → tx.tx_hash = p.1) ∧
      (∀ p ∈ d2, p.2.isSome = true) := by
  intro pairs
  induction pairs with
  | nil =>
    intro s d s1 d2 hres h1 h2 h3
    cases hres
    refine ⟨rfl, h2, ?_⟩
    intro p hp
    rcases h3 p hp with h4 | h4
    · exact h4
    · simp at h4
  | cons hd tl ih =>
    obtain ⟨t, r⟩ := hd
    intro s d s1 d2 hres h1 h2 h3
    have hkd : t.hash ∈ d.map Prod.fst := h1 (t, r) (List.mem_cons_self (t, r) tl)
    cases ht : t.blockHash with
    | none =>
      rw [writeTxs_step_noblock R cur bD t r tl s d ht] at hres
      cases hres
    | some bh =>
      cases hlb : lookupBlock bD bh with
      | none =>
        rw [writeTxs_step_nolookup R cur bD t r tl s d bh ht hlb] at hres
        cases hres
      | some bd =>
        cases hc : create_from_tx_dict
            (get_or_create_from_block s bd (confirmedFlag cur bd.number R)).1 t
            (get_or_create_from_block s bd (confirmedFlag cur bd.number R)).2 with
        | some q =>
          rw [writeTxs_step_create R cur bD t r tl s d bh bd q ht hlb hc] at hres
          have hkey : q.2.tx_hash = t.hash := (create_txs_mem _ t _ q hc).2.1
          have hkd2 : q.2.tx_hash ∈ d.map Prod.fst := by
            rw [hkey]
            exact hkd
          have hfst := dictSet_fst d q.2.tx_hash q.2 hkd2
          have hih := ih q.1 (dictSet d q.2.tx_hash q.2) s1 d2 hres ?_ ?_ ?_
          · exact ⟨hih.1.trans hfst, hih.2.1, hih.2.2⟩
          · intro tr htr
            rw [hfst]
            exact h1 tr (List.mem_cons_of_mem (t, r) htr)
          · intro p hp tx htx
            rcases mem_dictSet d q.2.tx_hash q.2 p hp with hEq | ⟨hpd, _⟩
            · subst hEq
              cases htx
              rfl
            · exact h2 p hpd tx htx
          · intro p hp
            rcases mem_dictSet d q.2.tx_hash q.2 p hp with hEq | ⟨hpd, hpk⟩
            · subst hEq
              exact Or.inl rfl
            · rcases h3 p hpd with h4 | h4
              · exact Or.inl h4
              · right
                rcases List.mem_cons.mp h4 with h5 | h5
                · exact absurd (h5.trans hkey.symm) hpk
                · exact h5
        | none =>
          cases hf : findTx
              (get_or_create_from_block s bd (confirmedFlag cur bd.number R)).1
              t.hash with
          | none =>
            rw [writeTxs_step_handler_miss R cur bD t r tl s d bh bd ht hlb hc hf]
              at hres
            cases hres
          | some tx0 =>
            rw [writeTxs_step_integrity R cur bD t r tl s d bh bd tx0 ht hlb hc hf]
              at hres
            set q := update_with_block_and_receipt
                (get_or_create_from_block s bd (confirmedFlag cur bd.number R)).1 tx0
                (get_or_create_from_block s bd (confirmedFlag cur bd.number R)).2
              with hqdef
            have hkey : q.2.tx_hash = t.hash := by
              rw [hqdef, update_tx_hash_eq]
              have h9 := List.find?_some hf
              simpa using h9
            have hkd2 : q.2.tx_hash ∈ d.map Prod.fst := by
              rw [hkey]
              exact hkd
            have hfst := dictSet_fst d q.2.tx_hash q.2 hkd2
            have hih := ih q.1 (dictSet d q.2.tx_hash q.2) s1 d2 hres ?_ ?_ ?_
            · exact ⟨hih.1.trans hfst, hih.2.1, hih.2.2⟩
            · intro tr htr
              rw [hfst]
              exact h1 tr (List.mem_cons_of_mem (t, r) htr)
            · intro p hp tx htx
              rcases mem_dictSet d q.2.tx_hash q.2 p hp with hEq | ⟨hpd, _⟩
              · subst hEq
                cases htx
                rfl
              · exact h2 p hpd tx htx
            · intro p hp
              rcases mem_dictSet d q.2.tx_hash q.2 p hp with hEq | ⟨hpd, hpk⟩
              · subst hEq
                exact Or.inl rfl
              · rcases h3 p hpd with h4 | h4
                · exact Or.inl h4
                · right
                  rcases List.mem_cons.mp h4 with h5 | h5
                  · exact absurd (h5.trans hkey.symm) hpk
                  · exact h5

/-- Client well-formedness needed for order preservation: batched endpoints answer
one entry per requested hash, and transactions fetched for a hash carry that hash. -/
structure EthClientWF (c : EthClient) : Prop where
  len_receipts : ∀ l, (c.get_transaction_receipts l).length = l.length
  len_txs : ∀ l, (c.get_transactions l).length = l.length
  single_tx_hash : ∀ (h : Nat) (t : TxData),
    c.get_transaction h = some t → t.hash = h
  batch_tx_hash : ∀ (l : List Nat) (h : Nat) (t : TxData),
    (h, some t) ∈ l.zip (c.get_transactions l) → t.hash = h

/-- C2: for every input collection of hashes, a successful batch call returns one
entry per distinct hash, in first-occurrence order of the input, each filled with a
transaction carrying exactly that hash — regardless of which hashes were database
hits and which were fetched. -/
theorem C2_batch_order (c : EthClient) (R : Int) (s : IndexDb) (hs : List Nat)
    (res : List (Option EthereumTx)) (hwf : EthClientWF c)
    (hok : (txs_create_or_update_from_tx_hashes c R s hs).2 = .ok res) :
    res.map (fun o => o.map (fun tx => tx.tx_hash)) = (dedupKeys hs).map some := by
  unfold txs_create_or_update_from_tx_hashes at hok
  dsimp only at hok
  set keys := dedupKeys hs with hkeys
  set d0 : TxDict := keys.map (fun h => (h, none)) with hd0
  set dbHits := s.txs.filter (fun t => decide (t.tx_hash ∈ hs) && t.block.isSome)
    with hdb
  set d1 := dbHits.foldl (fun d t => dictSet d t.tx_hash t) d0 with hd1
  set missing := d1.filterMap (fun p => if p.2.isNone then some p.1 else none)
    with hm
  have hd0fst : d0.map Prod.fst = keys := by
    rw [hd0, List.map_map]
    have hcomp : (Prod.fst ∘ fun h : Nat => ((h, none) : Nat × Option EthereumTx))
        = id := rfl
    rw [hcomp, List.map_id]
  have hrowmem : ∀ t ∈ dbHits, t.tx_hash ∈ d0.map Prod.fst := by
    intro t htm
    rw [hd0fst, hkeys, mem_dedupKeys]
    have h9 := (List.mem_filter.mp (hdb ▸ htm)).2
    rcases Bool.and_eq_true_iff.mp h9 with ⟨hA, _⟩
    exact of_decide_eq_true hA
  have hd1fst : d1.map Prod.fst = keys := by
    rw [hd1, foldl_dictSet_fst dbHits d0 hrowmem, hd0fst]
  have hd1vals : ∀ p ∈ d1, ∀ tx, p.2 = some tx → tx.tx_hash = p.1 := by
    rw [hd1]
    apply foldl_dictSet_vals
    intro p hp tx htx
    rcases List.mem_map.mp (hd0 ▸ hp) with ⟨h0, hh0, heq⟩
    rw [← heq] at htx
    cases htx
  have hmissSub : ∀ a ∈ missing, a ∈ keys := by
    intro a ha
    rcases List.mem_filterMap.mp (hm ▸ ha) with ⟨p, hp, hpa⟩
    by_cases hn : p.2.isNone = true
    · rw [if_pos hn] at hpa
      cases hpa
      rw [← hd1fst]
      exact List.mem_map_of_mem Prod.fst hp
    · rw [if_neg hn] at hpa
      cases hpa
  have hmissN : ∀ p ∈ d1, p.2.isNone = true → p.1 ∈ missing := by
    intro p hp hnone
    rw [hm]
    exact List.mem_filterMap.mpr ⟨p, hp, by rw [if_pos hnone]⟩
  have hconc : ∀ (dX : TxDict), dX.map Prod.fst = keys →
      (∀ p ∈ dX, ∀ tx, p.2 = some tx → tx.tx_hash = p.1) →
      (∀ p ∈ dX, p.2.isSome = true) →
      (dX.map (fun p => p.2)).map (fun o => o.map (fun tx => tx.tx_hash)) =
        keys.map some := by
    intro dX hfst hvals hfull
    rw [List.map_map]
    have hpt : ∀ p ∈ dX,
        ((fun o : Option EthereumTx => o.map (fun tx => tx.tx_hash)) ∘
          (fun p : Nat × Option EthereumTx => p.2)) p = some p.1 := by
      intro p hp
      rcases Option.isSome_iff_exists.mp (hfull p hp) with ⟨tx, htx⟩
      simp only [Function.comp_apply, htx, Option.map_some']
      rw [hvals p hp tx htx]
    rw [List.map_congr_left hpt]
    rw [show (fun p : Nat × Option EthereumTx => some p.1) =
        (Option.some ∘ Prod.fst) from rfl, ← List.map_map, hfst]
  split at hok
  next hempty =>
    cases hok
    apply hconc d1 hd1fst hd1vals
    intro p hp
    by_cases hn : p.2.isNone = true
    · exfalso
      have h9 := hmissN p hp hn
      rw [List.isEmpty_iff] at hempty
      rw [hempty] at h9
      cases h9
    · cases hpv : p.2 with
      | none => rw [hpv] at hn; exact absurd rfl hn
      | some tx => rfl
  next hempty =>
    split at hok
    · cases hok
    next receipts heqR =>
      split at hok
      · cases hok
      next fetchedTxs heqT =>
        split at hok
        · cases hok
        next blockDict heqB =>
          split at hok
          next s1 d2 heqW =>
            cases hok
            have hTmap : fetchedTxs.map (fun t => t.hash) = missing := by
              have hb : ∀ (h : Nat) (t : TxData),
                  (h, some t) ∈ missing.zip (c.get_transactions missing) →
                    t.hash = h :=
                fun h t hm2 => hwf.batch_tx_hash missing h t hm2
              have h9 := resolveTxs_hashes c hwf.single_tx_hash _ fetchedTxs hb heqT
              rw [h9]
              exact List.map_fst_zip missing (c.get_transactions missing)
                (le_of_eq (hwf.len_txs missing).symm)
            have hTlen : fetchedTxs.length = missing.length := by
              have h9 := congrArg List.length hTmap
              simpa using h9
            have hRlen : receipts.length = missing.length := by
              have h9 := resolveReceipts_length c _ receipts heqR
              rw [h9, List.length_zip, hwf.len_receipts missing]
              exact Nat.min_self _
            have hpairsmap :
                (fetchedTxs.zip receipts).map (fun tr => tr.1.hash) = missing := by
              have hfz : (fetchedTxs.zip receipts).map Prod.fst = fetchedTxs :=
                List.map_fst_zip fetchedTxs receipts
                  (le_of_eq (hTlen.trans hRlen.symm))
              calc (fetchedTxs.zip receipts).map (fun tr => tr.1.hash)
                  = ((fetchedTxs.zip receipts).map Prod.fst).map (fun t => t.hash) := by
                    rw [List.map_map]
                    rfl
                _ = fetchedTxs.map (fun t => t.hash) := by rw [hfz]
                _ = missing := hTmap
            have hW := writeTxs_dict_ok R c.current_block_number blockDict
              (fetchedTxs.zip receipts) s d1 s1 d2 heqW ?_ hd1vals ?_
            · exact hconc d2 (hW.1.trans hd1fst) hW.2.1 hW.2.2
            · intro tr htr
              rw [hd1fst]
              apply hmissSub
              rw [← hpairsmap]
              exact List.mem_map_of_mem (fun tr => tr.1.hash) htr
            · intro p hp
              by_cases hn : p.2.isNone = true
              · right
                rw [hpairsmap]
                exact hmissN p hp hn
              · left
                cases hpv : p.2 with
                | none => rw [hpv] at hn; exact absurd rfl hn
                | some tx => rfl
          next s1 e heqW => cases hok

/-- The transaction known to the C2 witness client. -/
def c2Tx3 : TxData := ⟨3, some 40⟩

/-- Single-item transaction lookup of the C2 witness client. -/
def c2TxLookup : Nat → Option TxData := fun h => if h == 3 then some c2Tx3 else none

/-- A client whose batched endpoints answer pointwise, knowing transaction 3 in
block 40 at height 100. -/
def c2Client : EthClient where
  current_block_number := 100
  get_block := fun h => if h == 40 then some ⟨40, 90⟩ else none
  get_transaction := c2TxLookup
  get_transaction_receipt := fun h =>
    if h == 3 then some ⟨some 90, some 40⟩ else none
  get_blocks := fun l =>
    l.map (fun h => if h == 40 then some (⟨40, 90⟩ : BlockData) else none)
  get_transactions := fun l => l.map c2TxLookup
  get_transaction_receipts := fun l =>
    l.map (fun h => if h == 3 then some (⟨some 90, some 40⟩ : TxReceipt) else none)

/-- Zipping a list with its own pointwise image pairs each element with its image. -/
theorem zip_map_self {α β : Type} (l : List α) (f : α → β) (a : α) (b : β)
    (hmem : (a, b) ∈ l.zip (l.map f)) : f a = b := by
  induction l with
  | nil => cases hmem
  | cons x tl ih =>
    rw [List.map_cons, List.zip_cons_cons] at hmem
    rcases List.mem_cons.mp hmem with h1 | h1
    · cases h1
      rfl
    · exact ih h1

/-- The witness lookup returns transactions carrying the requested hash. -/
theorem c2TxLookup_hash (h : Nat) (t : TxData) (ht : c2TxLookup h = some t) :
    t.hash = h := by
  unfold c2TxLookup at ht
  split at ht
  next heq =>
    cases ht
    have h3 : h = 3 := by simpa using heq
    rw [h3]
    rfl
  next => cases ht

/-- The C2 witness client is well-formed. -/
theorem c2ClientWF : EthClientWF c2Client := by
  refine ⟨?_, ?_, ?_, ?_⟩
  · intro l
    exact List.length_map l _
  · intro l
    exact List.length_map l _
  · intro h t ht
    exact c2TxLookup_hash h t ht
  · intro l h t hmem
    exact c2TxLookup_hash h t (zip_map_self l c2TxLookup h (some t) hmem)

/-- A store holding transaction 2 already block-linked, for the C2 witness. -/
def c2Store : IndexDb := ⟨[], [⟨2, some 50⟩]⟩

/-- C2 witness: input `[2, 3, 2]` — 2 a cache hit, 3 fetched, the duplicate 2
collapsed — yields entries for `[2, 3]` in first-occurrence order. -/
theorem C2_batch_order_witness :
    ([some (⟨2, some 50⟩ : EthereumTx), some (⟨3, some 40⟩ : EthereumTx)].map
        (fun o => o.map (fun tx => tx.tx_hash))) = (dedupKeys [2, 3, 2]).map some :=
  C2_batch_order c2Client 5 c2Store [2, 3, 2]
    [some ⟨2, some 50⟩, some ⟨3, some 40⟩] c2ClientWF rfl
